import Mathlib

/-!
Shallow embedding of the host main-loop core of qemu_stm32 (src/main-loop.c)
and proofs about it.  Pointers (HANDLE, PollingFunc*, void*) are modelled as
natural numbers; nullable function pointers as Option Nat.  C machine
integers are modelled as Nat / Int with the conversions made explicit.
-/

namespace QemuMainLoop

/-- The Windows API constant bounding the wait-object table. -/
def MAXIMUM_WAIT_OBJECTS : Nat := 64

/-- Largest value of a C uint32_t; used by main_loop_wait as the
"infinite timeout" sentinel. -/
def UINT32_MAX : Nat := 2 ^ 32 - 1

/-- Conversion of an unsigned 32-bit value to a signed 32-bit integer
(two's complement), as performed by the C assignment of a uint32_t to a
gint in os_host_main_loop_wait. -/
def toInt32 (n : Nat) : Int :=
  if n % 2 ^ 32 < 2 ^ 31 then ((n % 2 ^ 32 : Nat) : Int)
  else ((n % 2 ^ 32 : Nat) : Int) - 2 ^ 32

/-! ### Wait-object table (src/main-loop.c, WaitObjects / qemu_add_wait_object /
qemu_del_wait_object, alternate platform)

The C struct holds parallel arrays of size MAXIMUM_WAIT_OBJECTS + 1 together
with a count `num`.  The arrays are modelled as total functions on Nat; the C
code only touches indices below `num + 1`, which stay inside the real arrays
whenever `num ≤ MAXIMUM_WAIT_OBJECTS`, an invariant insertion maintains.
The C field named after the user pointer is rendered `opq`. -/

structure WaitObjects where
  num : Nat
  revents : Nat → Int
  events : Nat → Nat
  func : Nat → Option Nat
  opq : Nat → Nat

/-- The all-zero initial table (`static WaitObjects wait_objects = {0}`). -/
def initWaitObjects : WaitObjects :=
  { num := 0, revents := fun _ => 0, events := fun _ => 0,
    func := fun _ => none, opq := fun _ => 0 }

/-- One logical entry of the wait-object table, read across the four
parallel arrays. -/
structure WEntry where
  handle : Nat
  fn : Option Nat
  opq : Nat
  rev : Int
deriving DecidableEq, Repr

/-- Abstraction: the sequence of live entries of the table, in index order. -/
def waitToList (w : WaitObjects) : List WEntry :=
  (List.range w.num).map (fun i => ⟨w.events i, w.func i, w.opq i, w.revents i⟩)

/-- qemu_add_wait_object: reject when the count has reached
MAXIMUM_WAIT_OBJECTS (returning -1), else append at index `num` and
increment the count (returning 0). -/
def qemu_add_wait_object (w : WaitObjects) (handle : Nat) (fn : Option Nat)
    (o : Nat) : Int × WaitObjects :=
  if MAXIMUM_WAIT_OBJECTS ≤ w.num then (-1, w)
  else
    (0, { num := w.num + 1,
          events := Function.update w.events w.num handle,
          func := Function.update w.func w.num fn,
          opq := Function.update w.opq w.num o,
          revents := Function.update w.revents w.num 0 })

/-- One pass of the body of the qemu_del_wait_object loop at index `i`:
test the handle (sticky `found` flag), and when found shift the slot at
`i + 1` down to `i` in all four arrays. -/
def delStep (handle : Nat) (acc : Bool × WaitObjects) (i : Nat) :
    Bool × WaitObjects :=
  let found := acc.1 || (acc.2.events i == handle)
  if found then
    (true,
      { num := acc.2.num,
        events := Function.update acc.2.events i (acc.2.events (i + 1)),
        func := Function.update acc.2.func i (acc.2.func (i + 1)),
        opq := Function.update acc.2.opq i (acc.2.opq (i + 1)),
        revents := Function.update acc.2.revents i (acc.2.revents (i + 1)) })
  else (false, acc.2)

/-- qemu_del_wait_object: scan indices 0 .. num-1; from the first index whose
handle matches, shift every later slot left by one; decrement the count iff a
match was found.  The callback and user-pointer arguments are accepted (as in
the C signature) but never read. -/
def qemu_del_wait_object (w : WaitObjects) (handle : Nat) (fn : Option Nat)
    (o : Nat) : WaitObjects :=
  let r := (List.range w.num).foldl (delStep handle) (false, w)
  if r.1 then { r.2 with num := r.2.num - 1 } else r.2

/-! ### Polling-callback list (PollingEntry / qemu_add_polling_cb /
qemu_del_polling_cb, alternate platform).  The singly-linked list is
modelled as a Lean list in the same order (head = first_polling_entry). -/

structure PEntry where
  func : Nat
  opq : Nat
deriving DecidableEq, Repr

/-- qemu_add_polling_cb: walk to the tail and append; returns 0. -/
def qemu_add_polling_cb (l : List PEntry) (f o : Nat) : Int × List PEntry :=
  (0, l ++ [⟨f, o⟩])

/-- qemu_del_polling_cb: unlink the first entry whose function and user
pointer both match, then stop; no effect when nothing matches. -/
def qemu_del_polling_cb : List PEntry → Nat → Nat → List PEntry
  | [], _, _ => []
  | pe :: rest, f, o =>
      if pe.func = f ∧ pe.opq = o then rest
      else pe :: qemu_del_polling_cb rest f o

/-! ### SignalBridge drain handler (sigfd_handler, POSIX platform)

The reads from the signal descriptor are modelled as a list of read results
consumed in order; an exhausted list behaves like the nonblocking EAGAIN
case.  The sigaction query is an oracle from signal number to the installed
disposition, with `none` standing for a nonzero sigaction return. -/

/-- sizeof(struct qemu_signalfd_siginfo), the fixed record size (128 bytes). -/
def SIZEOF_SIGINFO : Int := 128

def EINTR : Nat := 4

def EAGAIN : Nat := 11

/-- Result of one read call on the signal descriptor: either `len` bytes
carrying a record with signal number `signo`, or -1 with an errno. -/
inductive ReadRes
  | ok (len : Int) (signo : Nat)
  | fail (errno : Nat)
deriving DecidableEq, Repr

/-- The relevant parts of a queried `struct sigaction`. -/
structure SigActionInfo where
  siginfoFlag : Bool
  hasSigaction : Bool
  hasHandler : Bool
deriving DecidableEq, Repr

/-- A synchronous re-dispatch performed by the drain handler. -/
inductive Dispatch
  | extended (signo : Nat)
  | basic (signo : Nat)
deriving DecidableEq, Repr

/-- How the drain handler's control flow ends.  `aborted` is in the
vocabulary so that process abort is expressible; no path of the translated
code produces it. -/
inductive SigfdExit
  | drained
  | shortRead (len : Int)
  | queryFail
  | aborted
deriving DecidableEq, Repr

/-- sigfd_handler: loop reading fixed-size records.  EINTR retries the read;
EAGAIN (or no more data) breaks the loop; any other length than
SIZEOF_SIGINFO prints a diagnostic and returns; a failed sigaction query
prints a diagnostic and returns; otherwise the installed handler is invoked,
preferring the extended form when SA_SIGINFO is set with a non-NULL
sa_sigaction, else the basic form when sa_handler is non-NULL. -/
def sigfd_handler (sa : Nat → Option SigActionInfo) :
    List ReadRes → List Dispatch × SigfdExit
  | [] => ([], .drained)
  | .fail e :: rest =>
      if e = EINTR then sigfd_handler sa rest
      else if e = EAGAIN then ([], .drained)
      else ([], .shortRead (-1))
  | .ok len signo :: rest =>
      if len ≠ SIZEOF_SIGINFO then ([], .shortRead len)
      else
        match sa signo with
        | none => ([], .queryFail)
        | some a =>
            let d := if a.siginfoFlag && a.hasSigaction then [Dispatch.extended signo]
                     else if a.hasHandler then [Dispatch.basic signo] else []
            let r := sigfd_handler sa rest
            (d ++ r.1, r.2)

/-! ### Timeout decisions (glib_select_fill / os_host_main_loop_wait) -/

/-- The cur_timeout update at the end of glib_select_fill: adopt the
framework timeout when it is non-negative and strictly smaller than the
current one. -/
def glib_select_fill_timeout (cur : Nat) (fw : Int) : Nat :=
  if 0 ≤ fw ∧ fw < (cur : Int) then fw.toNat else cur

/-- The poll_timeout decision of the alternate-platform
os_host_main_loop_wait: keep the framework timeout unless it is negative or
larger than the caller timeout, in which case the caller's uint32_t timeout
is assigned to the signed gint variable (two's-complement conversion). -/
def w32_poll_timeout (caller : Nat) (fw : Int) : Int :=
  if fw < 0 ∨ (caller : Int) < fw then toInt32 caller else fw

/-! ### Primary-variant wait and the main-loop driver, as effect traces

The descriptor sets themselves are abstract; what the claims are about is
the order of the calls, the lock manipulation, the timeout plumbing and the
returned value.  External collaborators are oracles in an environment. -/

inductive MLEvent
  | resetFds
  | slirpUpdateTimeout
  | slirpFill
  | ioFill
  | glibFill
  | unlockIothread
  | selectCall (tv : Option (Nat × Nat))
  | lockIothread
  | glibPoll
  | ioPoll (ret : Int)
  | slirpPoll (err : Bool)
  | runTimers
deriving DecidableEq, Repr

structure PosixEnv where
  slirpTimeout : Nat → Nat
  fwTimeout : Int
  selectRet : Int

/-- Primary-variant os_host_main_loop_wait: glib_select_fill tightens the
timeout; a finite timeout is converted to seconds and microseconds; the
iothread lock is dropped exactly when the effective timeout is positive,
around the single select call, then retaken; glib_select_poll runs; the raw
select result is returned. -/
def os_host_main_loop_wait_posix (env : PosixEnv) (timeout : Nat) :
    Int × List MLEvent :=
  let t := glib_select_fill_timeout timeout env.fwTimeout
  let tvarg := if t < UINT32_MAX then some (t / 1000, t % 1000 * 1000) else none
  (env.selectRet,
    [MLEvent.glibFill]
      ++ (if 0 < t then [MLEvent.unlockIothread] else [])
      ++ [MLEvent.selectCall tvarg]
      ++ (if 0 < t then [MLEvent.lockIothread] else [])
      ++ [MLEvent.glibPoll])

/-- main_loop_wait (primary variant, CONFIG_SLIRP enabled): nonblocking
forces a zero starting timeout, else the uint32 maximum; descriptor sets are
reset; slirp shrinks the timeout and fills; the iohandler layer fills; the
OS wait runs; iohandler readiness processing, then slirp readiness
processing with the error flag (ret < 0); all due timers run; the raw wait
result is returned. -/
def main_loop_wait (env : PosixEnv) (nonblocking : Bool) :
    Int × List MLEvent :=
  let timeout := if nonblocking then 0 else UINT32_MAX
  let t1 := env.slirpTimeout timeout
  let r := os_host_main_loop_wait_posix env t1
  (r.1,
    [MLEvent.resetFds, MLEvent.slirpUpdateTimeout, MLEvent.slirpFill,
      MLEvent.ioFill]
      ++ r.2
      ++ [MLEvent.ioPoll r.1, MLEvent.slirpPoll (decide (r.1 < 0)),
          MLEvent.runTimers])

/-- Lock-state annotation of a trace: pair each event with whether the
iothread lock is held while it runs (held at entry). -/
def annotateLock : Bool → List MLEvent → List (MLEvent × Bool)
  | _, [] => []
  | held, e :: es =>
      match e with
      | .unlockIothread => (e, held) :: annotateLock false es
      | .lockIothread => (e, held) :: annotateLock true es
      | _ => (e, held) :: annotateLock held es

/-! ### Alternate-platform wait (os_host_main_loop_wait under _WIN32)

Only the state the claims are about is tracked: the polling list, the
wait-object table, the timeout plumbing and the combined return value.  The
glib dispatch mutates no modelled state and is left to the environment. -/

structure W32Env where
  /-- Return value of each polling callback, by function id and user pointer. -/
  pollCbRet : Nat → Nat → Int
  /-- poll_timeout as produced by g_main_context_query. -/
  fwTimeout : Int
  /-- Result of the g_poll call. -/
  gPollRet : Int
  /-- revents reported for the poll slot appended for wait-object `i`. -/
  waitRevents : Nat → Int
  /-- Value of the nfds static at the time of the call (set by the fills). -/
  nfds : Int
  /-- Result of the zero-timeout select call. -/
  selectRet : Int
  /-- The indeterminate value select_ret keeps when nfds < 0 leaves the
  variable unassigned. -/
  junkSelectRet : Int
  /-- Effect of slirp_update_timeout on the driver timeout. -/
  slirpTimeout : Nat → Nat

/-- C logical OR of two ints: 1 when either is nonzero, else 0. -/
def cOr (a b : Int) : Int := if a ≠ 0 ∨ b ≠ 0 then 1 else 0

structure W32Result where
  ret : Int
  /-- Timeout actually handed to g_poll; none when the polling callbacks
  short-circuited the wait. -/
  gPollTimeout : Option Int
  /-- Final value of the function-local timeout variable, which the function
  discards by returning immediately afterwards. -/
  localTimeoutFinal : Nat
  w : WaitObjects
  /-- Wait-object callbacks invoked, in table order. -/
  dispatched : List (Option Nat × Nat)

/-- Alternate-platform os_host_main_loop_wait: run every polling callback and
OR the results, returning early on a nonzero combination; otherwise decide
the g_poll timeout, g_poll with the lock dropped around it, copy back the
wait-object revents and invoke their callbacks on a positive result, then
(when nfds ≥ 0) issue the extra zero-timeout select, zeroing the local
timeout variable if it reports readiness; the result is the C logical OR
select_ret || g_poll_ret. -/
def os_host_main_loop_wait_w32 (env : W32Env) (pl : List PEntry)
    (w : WaitObjects) (timeout : Nat) : W32Result :=
  let ret0 := pl.foldl (fun acc pe => Int.lor acc (env.pollCbRet pe.func pe.opq)) 0
  if ret0 ≠ 0 then ⟨ret0, none, timeout, w, []⟩
  else
    let pt := w32_poll_timeout timeout env.fwTimeout
    let gr := env.gPollRet
    let w' :=
      if 0 < gr then
        { w with revents := fun i => if i < w.num then env.waitRevents i else w.revents i }
      else w
    let disp :=
      if 0 < gr then
        (List.range w.num).filterMap (fun i =>
          if w'.revents i ≠ 0 ∧ (w.func i).isSome then some (w.func i, w.opq i)
          else none)
      else []
    let sr := if 0 ≤ env.nfds then env.selectRet else env.junkSelectRet
    let t' := if 0 ≤ env.nfds ∧ sr ≠ 0 then 0 else timeout
    ⟨cOr sr gr, some pt, t', w', disp⟩

/-- main_loop_wait on the alternate platform, restricted to the state the
wait mutates: the starting timeout comes only from the nonblocking flag,
slirp may shrink it, and the wait result is returned raw. -/
def main_loop_wait_w32 (env : W32Env) (nonblocking : Bool) (pl : List PEntry)
    (w : WaitObjects) : Int × W32Result :=
  let timeout := if nonblocking then 0 else UINT32_MAX
  let t1 := env.slirpTimeout timeout
  let r := os_host_main_loop_wait_w32 env pl w t1
  (r.ret, r)

/-! ### Registration-operation sequences (for the algebraic claims) -/

inductive RegOp
  | addP (f o : Nat)
  | delP (f o : Nat)
  | addW (h : Nat) (fn : Option Nat) (o : Nat)
  | delW (h : Nat) (fn : Option Nat) (o : Nat)
deriving DecidableEq, Repr

structure RegState where
  pl : List PEntry
  w : WaitObjects

/-- Interpretation of one registration operation by the C code. -/
def implStep (s : RegState) : RegOp → RegState
  | .addP f o => { s with pl := (qemu_add_polling_cb s.pl f o).2 }
  | .delP f o => { s with pl := qemu_del_polling_cb s.pl f o }
  | .addW h fn o => { s with w := (qemu_add_wait_object s.w h fn o).2 }
  | .delW h fn o => { s with w := qemu_del_wait_object s.w h fn o }

/-- Run of a whole operation sequence from the initial (empty) registries. -/
def implRun (ops : List RegOp) : RegState :=
  ops.foldl implStep ⟨[], initWaitObjects⟩

/-- Modelled from the spec: canonical polling-list semantics — an add
appends, a remove erases the first entry matching on both identity
components. -/
def specStepP (l : List PEntry) : RegOp → List PEntry
  | .addP f o => l ++ [⟨f, o⟩]
  | .delP f o => l.eraseP (fun pe => pe.func == f && pe.opq == o)
  | _ => l

/-- Modelled from the spec: canonical wait-table semantics — an add appends
unless the table already holds MAXIMUM_WAIT_OBJECTS entries (then it is
rejected), a remove erases the first entry with the given handle. -/
def specStepW (l : List WEntry) : RegOp → List WEntry
  | .addW h fn o => if l.length < MAXIMUM_WAIT_OBJECTS then l ++ [⟨h, fn, o, 0⟩] else l
  | .delW h _ _ => l.eraseP (fun e => e.handle == h)
  | _ => l

/-- Chronological payloads of the polling adds of a sequence. -/
def addsP (ops : List RegOp) : List PEntry :=
  ops.filterMap (fun op =>
    match op with
    | .addP f o => some ⟨f, o⟩
    | _ => none)

/-- Chronological payloads of the wait-table adds of a sequence. -/
def addsW (ops : List RegOp) : List WEntry :=
  ops.filterMap (fun op =>
    match op with
    | .addW h fn o => some ⟨h, fn, o, 0⟩
    | _ => none)

/-- Multiset semantics of the polling operations: adds insert, removes erase
one matching occurrence. -/
def mStepP (m : Multiset PEntry) : RegOp → Multiset PEntry
  | .addP f o => (⟨f, o⟩ : PEntry) ::ₘ m
  | .delP f o => m.erase ⟨f, o⟩
  | _ => m

/-! ### AsyncContextFacade (qemu_notify_event) -/

/-- The process-wide AioContext, opaque to this component. -/
structure AioContext where
  id : Nat
deriving DecidableEq, Repr

inductive NotifyEffect
  | aioNotify (ctxId : Nat)
deriving DecidableEq, Repr

/-- qemu_notify_event: return immediately when the context has not been
created yet, else call aio_notify on it.  The context pointer is the state;
it is never modified. -/
def qemu_notify_event (ctx : Option AioContext) :
    Option AioContext × List NotifyEffect :=
  match ctx with
  | none => (none, [])
  | some c => (some c, [NotifyEffect.aioNotify c.id])

/-! ## Helper notions for the wait-table characterization -/

/-- Left shift of the tail of an array: positions j .. n-1 take the value of
their right neighbour, the rest are untouched. -/
def shiftFun {α : Type} (f : Nat → α) (j n : Nat) : Nat → α :=
  fun k => if j ≤ k ∧ k < n then f (k + 1) else f k

/-- A table with all four arrays tail-shifted from j up to n. -/
def shifted (w : WaitObjects) (j n : Nat) : WaitObjects :=
  { num := w.num,
    events := shiftFun w.events j n,
    func := shiftFun w.func j n,
    opq := shiftFun w.opq j n,
    revents := shiftFun w.revents j n }

/-- The record produced by the shifting arm of the delete loop at index i. -/
def wShiftAt (v : WaitObjects) (i : Nat) : WaitObjects :=
  { num := v.num,
    events := Function.update v.events i (v.events (i + 1)),
    func := Function.update v.func i (v.func (i + 1)),
    opq := Function.update v.opq i (v.opq (i + 1)),
    revents := Function.update v.revents i (v.revents (i + 1)) }

/-- The logical entry of the table read at index i. -/
def gEnt (w : WaitObjects) (i : Nat) : WEntry :=
  ⟨w.events i, w.func i, w.opq i, w.revents i⟩

/-! ## Theorems -/

theorem shiftFun_base {α : Type} (f : Nat → α) (j : Nat) :
    Function.update f j (f (j + 1)) = shiftFun f j (j + 1) := by
  funext k
  simp only [Function.update_apply, shiftFun]
  by_cases hk : k = j
  · subst hk
    have hc : k ≤ k ∧ k < k + 1 := by omega
    simp [hc]
  · have hc : ¬(j ≤ k ∧ k < j + 1) := by omega
    simp [hk, hc]

theorem shiftFun_step {α : Type} (f : Nat → α) (j n : Nat) (hjn : j ≤ n) :
    Function.update (shiftFun f j n) n (shiftFun f j n (n + 1)) =
      shiftFun f j (n + 1) := by
  have hv : shiftFun f j n (n + 1) = f (n + 1) := by
    have hc : ¬(j ≤ n + 1 ∧ n + 1 < n) := by omega
    simp [shiftFun, hc]
  funext k
  simp only [Function.update_apply, hv, shiftFun]
  by_cases hk : k = n
  · subst hk
    have hc : j ≤ k ∧ k < k + 1 := by omega
    simp [hc]
  · have hiff : (j ≤ k ∧ k < n + 1) ↔ (j ≤ k ∧ k < n) := by omega
    rw [if_neg hk, if_congr hiff rfl rfl]

theorem delStep_true (h : Nat) (v : WaitObjects) (i : Nat) :
    delStep h (true, v) i = (true, wShiftAt v i) := by
  simp [delStep, wShiftAt]

theorem delStep_false_match (h : Nat) (v : WaitObjects) (i : Nat)
    (hm : v.events i = h) :
    delStep h (false, v) i = (true, wShiftAt v i) := by
  simp [delStep, wShiftAt, hm]

theorem delStep_false_nomatch (h : Nat) (v : WaitObjects) (i : Nat)
    (hm : v.events i ≠ h) :
    delStep h (false, v) i = (false, v) := by
  simp [delStep, hm]

theorem delFold_no_match (w : WaitObjects) (h : Nat) (n : Nat)
    (hn : ∀ i < n, w.events i ≠ h) :
    (List.range n).foldl (delStep h) (false, w) = (false, w) := by
  induction n with
  | zero => rfl
  | succ m ih =>
      rw [List.range_succ, List.foldl_append,
        ih (fun i hi => hn i (Nat.lt_succ_of_lt hi))]
      simpa using delStep_false_nomatch h w m (hn m (Nat.lt_succ_self m))

theorem wShiftAt_shifted_base (w : WaitObjects) (j : Nat) :
    wShiftAt w j = shifted w j (j + 1) := by
  simp only [wShiftAt, shifted]
  congr 1 <;> exact shiftFun_base _ j

theorem wShiftAt_shifted_step (w : WaitObjects) (j m : Nat) (hjm : j ≤ m) :
    wShiftAt (shifted w j m) m = shifted w j (m + 1) := by
  simp only [wShiftAt, shifted]
  congr 1 <;> exact shiftFun_step _ j m hjm

theorem delFold_match (w : WaitObjects) (h j : Nat)
    (hmin : ∀ i < j, w.events i ≠ h) (hj : w.events j = h) :
    ∀ n, j < n →
      (List.range n).foldl (delStep h) (false, w) = (true, shifted w j n) := by
  intro n
  induction n with
  | zero => omega
  | succ m ih =>
      intro hjm
      rw [List.range_succ, List.foldl_append]
      rcases Nat.lt_or_ge j m with hlt | hge
      · rw [ih hlt]
        have : List.foldl (delStep h) (true, shifted w j m) [m] =
            delStep h (true, shifted w j m) m := by simp
        rw [this, delStep_true, wShiftAt_shifted_step w j m (Nat.le_of_lt hlt)]
      · have hej : j = m := by omega
        subst hej
        rw [delFold_no_match w h j hmin]
        have : List.foldl (delStep h) (false, w) [j] = delStep h (false, w) j := by
          simp
        rw [this, delStep_false_match h w j hj, wShiftAt_shifted_base w j]

theorem waitToList_length (w : WaitObjects) : (waitToList w).length = w.num := by
  simp [waitToList]

theorem qemu_del_wait_object_no_match (w : WaitObjects) (h : Nat)
    (fn : Option Nat) (o : Nat) (hn : ∀ i < w.num, w.events i ≠ h) :
    qemu_del_wait_object w h fn o = w := by
  unfold qemu_del_wait_object
  rw [delFold_no_match w h w.num hn]
  simp

/-- Generic fact: deleting position j from the table of values of g on
0 .. n-1 by shifting later values left agrees with erasing the first
p-satisfying element, when j is the first p-satisfying position. -/
theorem range_map_eraseP {α : Type} (p : α → Bool) :
    ∀ (j : Nat) (g : Nat → α) (n : Nat), j < n →
      (∀ i < j, p (g i) = false) → p (g j) = true →
      (List.range (n - 1)).map (fun k => if j ≤ k then g (k + 1) else g k) =
        ((List.range n).map g).eraseP p := by
  intro j
  induction j with
  | zero =>
      intro g n hn _ hpj
      obtain ⟨m, rfl⟩ : ∃ m, n = m + 1 := ⟨n - 1, by omega⟩
      rw [List.range_succ_eq_map, List.map_cons, List.map_map,
        List.eraseP_cons_of_pos hpj]
      simp only [Nat.add_sub_cancel]
      apply List.map_congr_left
      intro k _
      simp [Function.comp, Nat.zero_le]
  | succ j ih =>
      intro g n hn hmin hpj
      obtain ⟨m', rfl⟩ : ∃ m', n = m' + 2 := ⟨n - 2, by omega⟩
      have hjm : j < m' + 1 := by omega
      have hp0 : p (g 0) = false := hmin 0 (Nat.succ_pos j)
      have e1 : m' + 2 - 1 = m' + 1 := rfl
      have hL : (List.range (m' + 2 - 1)).map
            (fun k => if j + 1 ≤ k then g (k + 1) else g k) =
          g 0 :: (List.range m').map
            ((fun k => if j + 1 ≤ k then g (k + 1) else g k) ∘ Nat.succ) := by
        rw [e1, List.range_succ_eq_map, List.map_cons, List.map_map]
        simp
      have hR : ((List.range (m' + 2)).map g).eraseP p =
          g 0 :: ((List.range (m' + 1)).map (g ∘ Nat.succ)).eraseP p := by
        rw [List.range_succ_eq_map, List.map_cons, List.map_map,
          List.eraseP_cons_of_neg (by simp [hp0])]
      rw [hL, hR]
      congr 1
      have ihx := ih (g ∘ Nat.succ) (m' + 1) hjm
        (fun i hi => hmin (i + 1) (Nat.succ_lt_succ hi)) hpj
      simp only [Nat.add_sub_cancel] at ihx
      rw [← ihx]
      apply List.map_congr_left
      intro k _
      simp only [Function.comp]
      rw [if_congr (Nat.succ_le_succ_iff) rfl rfl]

/-- The delete operation, at the level of entry lists: it erases exactly the
first entry whose handle equals the handle argument (and nothing when no
handle matches). -/
theorem waitToList_del (w : WaitObjects) (h : Nat) (fn : Option Nat)
    (o : Nat) :
    waitToList (qemu_del_wait_object w h fn o) =
      (waitToList w).eraseP (fun e => e.handle == h) := by
  by_cases hex : ∃ i, i < w.num ∧ w.events i = h
  · have hspec := Nat.find_spec hex
    set j := Nat.find hex with hjdef
    have hminp : ∀ i < j, w.events i ≠ h := by
      intro i hij he
      exact Nat.find_min hex hij ⟨Nat.lt_trans hij hspec.1, he⟩
    have hdel : qemu_del_wait_object w h fn o =
        { shifted w j w.num with num := w.num - 1 } := by
      unfold qemu_del_wait_object
      rw [delFold_match w h j hminp hspec.2 w.num hspec.1]
      simp [shifted]
    rw [hdel]
    have hL : waitToList { shifted w j w.num with num := w.num - 1 } =
        (List.range (w.num - 1)).map
          (fun k => if j ≤ k then gEnt w (k + 1) else gEnt w k) := by
      unfold waitToList
      apply List.map_congr_left
      intro k hk
      have hk' : k < w.num - 1 := List.mem_range.mp hk
      by_cases hjk : j ≤ k
      · have hc : j ≤ k ∧ k < w.num := ⟨hjk, by omega⟩
        simp [shifted, shiftFun, hc, hjk, gEnt]
      · have hc : ¬(j ≤ k ∧ k < w.num) := fun hc => hjk hc.1
        simp [shifted, shiftFun, hc, hjk, gEnt]
    rw [hL]
    have hR : waitToList w = (List.range w.num).map (gEnt w) := rfl
    rw [hR]
    exact range_map_eraseP _ j (gEnt w) w.num hspec.1
      (fun i hi => by simp [gEnt, hminp i hi])
      (by simp [gEnt, hspec.2])
  · push_neg at hex
    rw [qemu_del_wait_object_no_match w h fn o hex]
    symm
    apply List.eraseP_of_forall_not
    intro e he
    unfold waitToList at he
    rw [List.mem_map] at he
    obtain ⟨i, hi, rfl⟩ := he
    simp [hex i (List.mem_range.mp hi)]

/-- The add operation, at the level of entry lists: appended when below
capacity, rejected with -1 at capacity. -/
theorem waitToList_add (w : WaitObjects) (h : Nat) (fn : Option Nat)
    (o : Nat) :
    waitToList (qemu_add_wait_object w h fn o).2 =
      (if (waitToList w).length < MAXIMUM_WAIT_OBJECTS
        then waitToList w ++ [⟨h, fn, o, 0⟩] else waitToList w) := by
  rw [waitToList_length]
  unfold qemu_add_wait_object
  by_cases hc : MAXIMUM_WAIT_OBJECTS ≤ w.num
  · rw [if_pos hc, if_neg (by omega)]
  · rw [if_neg hc, if_pos (by omega)]
    unfold waitToList
    rw [List.range_succ, List.map_append]
    congr 1
    · apply List.map_congr_left
      intro k hk
      have hk' : k < w.num := List.mem_range.mp hk
      simp [Function.update_apply, Nat.ne_of_lt hk']
    · simp

/-- The polling-list delete is erasure of the first entry matching on both
identity components. -/
theorem del_polling_eraseP (l : List PEntry) (f o : Nat) :
    qemu_del_polling_cb l f o =
      l.eraseP (fun pe => pe.func == f && pe.opq == o) := by
  induction l with
  | nil => rfl
  | cons pe rest ih =>
      simp only [qemu_del_polling_cb, List.eraseP_cons]
      by_cases hm : pe.func = f ∧ pe.opq = o
      · rw [if_pos hm]
        simp [hm.1, hm.2]
      · rw [if_neg hm]
        have hb : (pe.func == f && pe.opq == o) = false := by
          rcases not_and_or.mp hm with h | h <;> simp [h]
        simp [hb, ih]

theorem implStep_pl (s : RegState) (op : RegOp) :
    (implStep s op).pl = specStepP s.pl op := by
  cases op with
  | addP f o => rfl
  | delP f o => exact del_polling_eraseP s.pl f o
  | addW h fn o => rfl
  | delW h fn o => rfl

theorem implStep_w (s : RegState) (op : RegOp) :
    waitToList (implStep s op).w = specStepW (waitToList s.w) op := by
  cases op with
  | addP f o => rfl
  | delP f o => rfl
  | addW h fn o => exact waitToList_add s.w h fn o
  | delW h fn o => exact waitToList_del s.w h fn o

theorem implRun_pl_fold (ops : List RegOp) :
    ∀ s : RegState, (ops.foldl implStep s).pl = ops.foldl specStepP s.pl := by
  induction ops with
  | nil => intro s; rfl
  | cons op rest ih =>
      intro s
      rw [List.foldl_cons, List.foldl_cons, ih, implStep_pl]

theorem implRun_w_fold (ops : List RegOp) :
    ∀ s : RegState,
      waitToList (ops.foldl implStep s).w = ops.foldl specStepW (waitToList s.w) := by
  induction ops with
  | nil => intro s; rfl
  | cons op rest ih =>
      intro s
      rw [List.foldl_cons, List.foldl_cons, ih, implStep_w]

theorem specP_fold_sublist (ops : List RegOp) :
    ∀ l A : List PEntry, l.Sublist A →
      (ops.foldl specStepP l).Sublist (A ++ addsP ops) := by
  induction ops with
  | nil => intro l A h; simpa [addsP] using h
  | cons op rest ih =>
      intro l A h
      rw [List.foldl_cons]
      cases op with
      | addP f o =>
          have h2 : (l ++ [(⟨f, o⟩ : PEntry)]).Sublist (A ++ [⟨f, o⟩]) :=
            h.append (List.Sublist.refl _)
          have h3 := ih _ _ h2
          simpa [specStepP, addsP, List.filterMap_cons] using h3
      | delP f o =>
          have h2 : ((specStepP l (.delP f o))).Sublist A :=
            (List.eraseP_sublist l).trans h
          have h3 := ih _ _ h2
          simpa [addsP, List.filterMap_cons] using h3
      | addW hh fn o =>
          have h3 := ih _ _ h
          simpa [specStepP, addsP, List.filterMap_cons] using h3
      | delW hh fn o =>
          have h3 := ih _ _ h
          simpa [specStepP, addsP, List.filterMap_cons] using h3

theorem specW_fold_sublist (ops : List RegOp) :
    ∀ l A : List WEntry, l.Sublist A →
      (ops.foldl specStepW l).Sublist (A ++ addsW ops) := by
  induction ops with
  | nil => intro l A h; simpa [addsW] using h
  | cons op rest ih =>
      intro l A h
      rw [List.foldl_cons]
      cases op with
      | addP f o =>
          have h3 := ih _ _ h
          simpa [specStepW, addsW, List.filterMap_cons] using h3
      | delP f o =>
          have h3 := ih _ _ h
          simpa [specStepW, addsW, List.filterMap_cons] using h3
      | addW hh fn o =>
          have h2 : (specStepW l (.addW hh fn o)).Sublist (A ++ [⟨hh, fn, o, 0⟩]) := by
            simp only [specStepW]
            by_cases hc : l.length < MAXIMUM_WAIT_OBJECTS
            · rw [if_pos hc]
              exact h.append (List.Sublist.refl _)
            · rw [if_neg hc]
              exact h.trans (List.sublist_append_left A _)
          have h3 := ih _ _ h2
          simpa [addsW, List.filterMap_cons] using h3
      | delW hh fn o =>
          have h2 : (specStepW l (.delW hh fn o)).Sublist A :=
            (List.eraseP_sublist l).trans h
          have h3 := ih _ _ h2
          simpa [addsW, List.filterMap_cons] using h3

theorem pentry_beq_pair (f o : Nat) :
    (fun pe : PEntry => pe.func == f && pe.opq == o) =
      (fun pe : PEntry => pe == ⟨f, o⟩) := by
  funext pe
  cases pe with
  | mk a b =>
      rw [Bool.eq_iff_iff]
      simp [PEntry.mk.injEq]

theorem specP_fold_multiset (ops : List RegOp) :
    ∀ l : List PEntry,
      ((ops.foldl specStepP l : List PEntry) : Multiset PEntry) =
        ops.foldl mStepP (l : Multiset PEntry) := by
  induction ops with
  | nil => intro l; rfl
  | cons op rest ih =>
      intro l
      rw [List.foldl_cons, List.foldl_cons, ih]
      congr 1
      cases op with
      | addP f o =>
          show ((l ++ [(⟨f, o⟩ : PEntry)] : List PEntry) : Multiset PEntry) =
            (⟨f, o⟩ : PEntry) ::ₘ (l : Multiset PEntry)
          exact Multiset.coe_eq_coe.mpr (List.perm_append_singleton _ l)
      | delP f o =>
          show ((l.eraseP (fun pe => pe.func == f && pe.opq == o) : List PEntry) :
              Multiset PEntry) = (l : Multiset PEntry).erase ⟨f, o⟩
          rw [pentry_beq_pair, ← List.erase_eq_eraseP']
          exact (Multiset.coe_erase l _).symm
      | addW hh fn o => rfl
      | delW hh fn o => rfl

/-- The drain handler has no path that aborts the process. -/
theorem sigfd_handler_ne_aborted (sa : Nat → Option SigActionInfo) :
    ∀ reads : List ReadRes, (sigfd_handler sa reads).2 ≠ SigfdExit.aborted := by
  intro reads
  induction reads with
  | nil => simp [sigfd_handler]
  | cons r rest ih =>
      cases r with
      | fail e =>
          by_cases h1 : e = EINTR
          · simpa [sigfd_handler, h1] using ih
          · by_cases h2 : e = EAGAIN
            · simp [sigfd_handler, h1, h2, EINTR, EAGAIN]
            · simp [sigfd_handler, h1, h2]
      | ok len signo =>
          by_cases h1 : len = SIZEOF_SIGINFO
          · cases hsa : sa signo with
            | none => simp [sigfd_handler, h1, hsa]
            | some a => simpa [sigfd_handler, h1, hsa] using ih
          · simp [sigfd_handler, h1]

/-! ## Claim theorems -/

/-- Claim C1, counterexample: on a short (5-byte) read the drain handler
prints a diagnostic and returns from the handler — its exit is
`shortRead 5`, a normal return, not a process abort as the claim states. -/
theorem claim_C1_counterexample :
    sigfd_handler (fun _ => none) [ReadRes.ok 5 0] = ([], SigfdExit.shortRead 5)
    ∧ SigfdExit.shortRead 5 ≠ SigfdExit.aborted := by
  constructor
  · decide
  · decide

/-- Claim C1 (amended): a short or malformed record read makes the drain
handler print a diagnostic and return immediately (processing no further
records), and so does a failure to query the installed signal handler;
neither condition continues the drain loop, and neither aborts the
process — the handler has no aborting path at all. -/
theorem claim_C1_amended (sa : Nat → Option SigActionInfo)
    (reads rest rest' : List ReadRes) (len : Int) (signo signo' : Nat)
    (hlen : len ≠ SIZEOF_SIGINFO) (hq : sa signo' = none) :
    (sigfd_handler sa reads).2 ≠ SigfdExit.aborted
    ∧ sigfd_handler sa (ReadRes.ok len signo :: rest) =
        ([], SigfdExit.shortRead len)
    ∧ sigfd_handler sa (ReadRes.ok SIZEOF_SIGINFO signo' :: rest') =
        ([], SigfdExit.queryFail) := by
  refine ⟨sigfd_handler_ne_aborted sa reads, ?_, ?_⟩
  · simp [sigfd_handler, hlen]
  · simp [sigfd_handler, hq]

/-- Witness for claim C1's amended theorem at concrete inputs. -/
theorem claim_C1_witness :
    (sigfd_handler (fun _ => none) []).2 ≠ SigfdExit.aborted
    ∧ sigfd_handler (fun _ => none) [ReadRes.ok 5 0] =
        ([], SigfdExit.shortRead 5)
    ∧ sigfd_handler (fun _ => none) [ReadRes.ok SIZEOF_SIGINFO 0] =
        ([], SigfdExit.queryFail) :=
  claim_C1_amended (fun _ => none) [] [] [] 5 0 0 (by decide) rfl

/-- Claim C2: adding a wait object once the count has reached
MAXIMUM_WAIT_OBJECTS returns the recoverable error -1 and leaves the whole
table — count and every stored handle, callback, pointer and result
field — unchanged. -/
theorem claim_C2 (w : WaitObjects) (h : Nat) (fn : Option Nat) (o : Nat)
    (hfull : MAXIMUM_WAIT_OBJECTS ≤ w.num) :
    qemu_add_wait_object w h fn o = (-1, w) := by
  unfold qemu_add_wait_object
  rw [if_pos hfull]

/-- Witness for claim C2 at a concrete full table. -/
theorem claim_C2_witness :
    MAXIMUM_WAIT_OBJECTS ≤
      (WaitObjects.mk 64 (fun _ => 0) (fun _ => 0) (fun _ => none)
        (fun _ => 0)).num
    ∧ qemu_add_wait_object
        (WaitObjects.mk 64 (fun _ => 0) (fun _ => 0) (fun _ => none)
          (fun _ => 0)) 7 (some 1) 2 =
      (-1, WaitObjects.mk 64 (fun _ => 0) (fun _ => 0) (fun _ => none)
        (fun _ => 0)) :=
  ⟨by decide, claim_C2 _ 7 (some 1) 2 (by decide)⟩

/-- Claim C3, counterexample: in the alternate-platform variant, with a
negative framework timeout and the caller timeout UINT32_MAX, the timeout
handed to the poll is -1 (the uint32-to-gint conversion of the caller
value), not the caller timeout itself. -/
theorem claim_C3_counterexample :
    w32_poll_timeout UINT32_MAX (-1) = -1
    ∧ ((-1 : Int) ≠ (UINT32_MAX : Int)) := by
  constructor
  · decide
  · decide

/-- Claim C3 (amended): in the primary variant the effective timeout is
min(caller, framework) for a non-negative framework timeout and the caller
timeout unchanged otherwise.  In the alternate variant the same min holds
for a framework timeout in the int range; for a negative framework timeout
the effective timeout is the caller value converted to a signed 32-bit
integer, which equals the caller whenever it is below 2^31 (UINT32_MAX, the
infinite sentinel, becomes -1, likewise infinite for the poll). -/
theorem claim_C3_amended (cur caller : Nat) (fw : Int) :
    (glib_select_fill_timeout cur fw =
      if 0 ≤ fw then min fw.toNat cur else cur)
    ∧ (0 ≤ fw → fw < 2 ^ 31 →
        w32_poll_timeout caller fw = min (caller : Int) fw)
    ∧ (fw < 0 → w32_poll_timeout caller fw = toInt32 caller)
    ∧ (fw < 0 → caller < 2 ^ 31 →
        w32_poll_timeout caller fw = (caller : Int)) := by
  refine ⟨?_, ?_, ?_, ?_⟩
  · unfold glib_select_fill_timeout
    by_cases h0 : 0 ≤ fw
    · by_cases h1 : fw < (cur : Int)
      · rw [if_pos ⟨h0, h1⟩, if_pos h0, Nat.min_eq_left (by omega)]
      · rw [if_neg (fun hc => h1 hc.2), if_pos h0, Nat.min_eq_right (by omega)]
    · rw [if_neg (fun hc => h0 hc.1), if_neg h0]
  · intro h0 h31
    unfold w32_poll_timeout
    by_cases hc : (caller : Int) < fw
    · rw [if_pos (Or.inr hc)]
      have hcal : caller < 2 ^ 31 := by omega
      unfold toInt32
      rw [Nat.mod_eq_of_lt (by omega), if_pos (by omega),
        min_eq_left (le_of_lt hc)]
    · rw [if_neg (fun hor => hor.elim (fun hneg => absurd h0 (not_le.mpr hneg)) hc),
        min_eq_right (not_lt.mp hc)]
  · intro hneg
    unfold w32_poll_timeout
    rw [if_pos (Or.inl hneg)]
  · intro hneg hcal
    unfold w32_poll_timeout toInt32
    rw [if_pos (Or.inl hneg), Nat.mod_eq_of_lt (by omega), if_pos (by omega)]

/-- Witness for claim C3's amended theorem at concrete timeouts. -/
theorem claim_C3_witness :
    (glib_select_fill_timeout 10 3 =
      if (0 : Int) ≤ 3 then min (3 : Int).toNat 10 else 10)
    ∧ w32_poll_timeout 7 3 = min (7 : Int) 3
    ∧ w32_poll_timeout 7 (-1) = toInt32 7
    ∧ w32_poll_timeout 7 (-1) = (7 : Int) :=
  ⟨(claim_C3_amended 10 7 3).1,
   (claim_C3_amended 10 7 3).2.1 (by decide) (by decide),
   (claim_C3_amended 10 7 (-1)).2.2.1 (by decide),
   (claim_C3_amended 10 7 (-1)).2.2.2 (by decide) (by decide)⟩

/-- Claim C8: removing a polling callback with no identity match, or a wait
object whose handle is absent, returns with the registry state identical. -/
theorem claim_C8 (l : List PEntry) (f o : Nat) (w : WaitObjects) (h : Nat)
    (fn : Option Nat) (o' : Nat)
    (hp : ∀ pe ∈ l, ¬(pe.func = f ∧ pe.opq = o))
    (hw : ∀ i < w.num, w.events i ≠ h) :
    qemu_del_polling_cb l f o = l ∧ qemu_del_wait_object w h fn o' = w := by
  constructor
  · induction l with
    | nil => rfl
    | cons pe rest ih =>
        have h1 : ¬(pe.func = f ∧ pe.opq = o) := hp pe (List.mem_cons_self pe rest)
        simp only [qemu_del_polling_cb, if_neg h1]
        rw [ih (fun q hq => hp q (List.mem_cons_of_mem _ hq))]
  · exact qemu_del_wait_object_no_match w h fn o' hw

/-- Witness for claim C8 at concrete registries without the sought entries. -/
theorem claim_C8_witness :
    qemu_del_polling_cb [⟨1, 2⟩] 3 4 = [⟨1, 2⟩]
    ∧ qemu_del_wait_object
        (WaitObjects.mk 1 (fun _ => 0) (fun _ => 5) (fun _ => none)
          (fun _ => 0)) 9 none 0 =
      WaitObjects.mk 1 (fun _ => 0) (fun _ => 5) (fun _ => none) (fun _ => 0) :=
  claim_C8 [⟨1, 2⟩] 3 4
    (WaitObjects.mk 1 (fun _ => 0) (fun _ => 5) (fun _ => none) (fun _ => 0))
    9 none 0
    (by intro pe hpe; simp at hpe; subst hpe; decide)
    (by intro i _; simp)

/-- Claim C9: notify() before the process-wide async context has been
constructed is a safe no-op: it returns, raises nothing, performs no
notification and leaves the state unchanged. -/
theorem claim_C9 : qemu_notify_event none = (none, []) := rfl

/-- Claim C10: wait-object removal matches by handle alone — the callback
and pointer arguments never influence the result, and the entry removed is
exactly the first entry whose handle equals the handle argument. -/
theorem claim_C10 (w : WaitObjects) (h : Nat) (fn fn' : Option Nat)
    (o o' : Nat) :
    qemu_del_wait_object w h fn o = qemu_del_wait_object w h fn' o'
    ∧ waitToList (qemu_del_wait_object w h fn o) =
        (waitToList w).eraseP (fun e => e.handle == h) :=
  ⟨rfl, waitToList_del w h fn o⟩

set_option maxRecDepth 4000 in
/-- Claim C5, counterexample: sixty-five wait-object adds (and no removes)
leave only sixty-four surviving entries, while the multiset of adds minus
the (empty) matched removes has sixty-five elements — the claimed equality
fails once an add hits the full table. -/
theorem claim_C5_counterexample :
    (waitToList (implRun (List.replicate 65 (RegOp.addW 1 none 0))).w).length = 64
    ∧ (addsW (List.replicate 65 (RegOp.addW 1 none 0))).length = 65
    ∧ waitToList (implRun (List.replicate 65 (RegOp.addW 1 none 0))).w ≠
        addsW (List.replicate 65 (RegOp.addW 1 none 0)) := by
  have h1 : waitToList (implRun (List.replicate 65 (RegOp.addW 1 none 0))).w =
      (List.replicate 65 (RegOp.addW 1 none 0)).foldl specStepW [] := by
    have hh := implRun_w_fold (List.replicate 65 (RegOp.addW 1 none 0))
      ⟨[], initWaitObjects⟩
    simpa [implRun] using hh
  rw [h1]
  refine ⟨by decide, by decide, by decide⟩

/-- Claim C5 (amended): for every finite sequence of add and remove
operations on the polling-callback list and the wait-object table, the final
states coincide with the canonical list semantics — adds append (a
wait-table add is rejected, contributing nothing, exactly when the table
already holds MAXIMUM_WAIT_OBJECTS entries), removes erase the first
matching entry — so final membership is the adds minus the matched removes;
the survivors form a sublist of the chronological adds, i.e. they keep their
registration order; and the polling-list membership equals the multiset fold
of adds minus removes. -/
theorem claim_C5_amended (ops : List RegOp) :
    (implRun ops).pl = ops.foldl specStepP []
    ∧ waitToList (implRun ops).w = ops.foldl specStepW []
    ∧ (ops.foldl specStepP []).Sublist (addsP ops)
    ∧ (ops.foldl specStepW []).Sublist (addsW ops)
    ∧ ((implRun ops).pl : Multiset PEntry) = ops.foldl mStepP 0 := by
  have hpl : (implRun ops).pl = ops.foldl specStepP [] :=
    implRun_pl_fold ops ⟨[], initWaitObjects⟩
  have hw : waitToList (implRun ops).w = ops.foldl specStepW [] := by
    have hh := implRun_w_fold ops ⟨[], initWaitObjects⟩
    simpa [implRun] using hh
  refine ⟨hpl, hw, ?_, ?_, ?_⟩
  · simpa using specP_fold_sublist ops [] [] (List.Sublist.refl [])
  · simpa using specW_fold_sublist ops [] [] (List.Sublist.refl [])
  · rw [hpl]
    simpa using specP_fold_multiset ops []

/-- Claim C6: every call of the main-loop driver performs, in order: reset
of the descriptor sets, the network-stack timeout shrink and fill, the
device-I/O-multiplexer fill, the blocking wait, multiplexer readiness
processing then network-stack readiness processing (the latter fed the
error flag ret < 0), and finally runs all due timers unconditionally —
whatever the wait returned, including a negative result — returning the raw
wait result. -/
theorem claim_C6 (env : PosixEnv) (nb : Bool) :
    (main_loop_wait env nb).1 = env.selectRet
    ∧ (main_loop_wait env nb).2 =
        [MLEvent.resetFds, MLEvent.slirpUpdateTimeout, MLEvent.slirpFill,
          MLEvent.ioFill]
          ++ (os_host_main_loop_wait_posix env
              (env.slirpTimeout (if nb then 0 else UINT32_MAX))).2
          ++ [MLEvent.ioPoll env.selectRet,
              MLEvent.slirpPoll (decide (env.selectRet < 0)),
              MLEvent.runTimers]
    ∧ (main_loop_wait env nb).2.getLast? = some MLEvent.runTimers := by
  refine ⟨rfl, rfl, ?_⟩
  show (([MLEvent.resetFds, MLEvent.slirpUpdateTimeout, MLEvent.slirpFill,
      MLEvent.ioFill]
      ++ (os_host_main_loop_wait_posix env
          (env.slirpTimeout (if nb then 0 else UINT32_MAX))).2
      ++ [MLEvent.ioPoll env.selectRet,
          MLEvent.slirpPoll (decide (env.selectRet < 0)),
          MLEvent.runTimers]) : List MLEvent).getLast? = some MLEvent.runTimers
  rw [show ([MLEvent.ioPoll env.selectRet,
      MLEvent.slirpPoll (decide (env.selectRet < 0)), MLEvent.runTimers] :
      List MLEvent) =
      [MLEvent.ioPoll env.selectRet,
        MLEvent.slirpPoll (decide (env.selectRet < 0))] ++ [MLEvent.runTimers]
    from rfl, ← List.append_assoc]
  rw [List.getLast?_concat]

/-- Claim C7: in the primary-variant wait the iothread lock is released
exactly when the effective timeout is non-zero, immediately before the
single select call, and retaken immediately after it; the fill and the
poll/dispatch work run with the lock held, and the select itself runs
unlocked precisely in the non-zero-timeout case. -/
theorem claim_C7 (env : PosixEnv) (timeout : Nat) :
    ∃ tv : Option (Nat × Nat),
      annotateLock true (os_host_main_loop_wait_posix env timeout).2 =
        if glib_select_fill_timeout timeout env.fwTimeout = 0 then
          [(MLEvent.glibFill, true), (MLEvent.selectCall tv, true),
            (MLEvent.glibPoll, true)]
        else
          [(MLEvent.glibFill, true), (MLEvent.unlockIothread, true),
            (MLEvent.selectCall tv, false), (MLEvent.lockIothread, false),
            (MLEvent.glibPoll, true)] := by
  refine ⟨if glib_select_fill_timeout timeout env.fwTimeout < UINT32_MAX then
    some (glib_select_fill_timeout timeout env.fwTimeout / 1000,
      glib_select_fill_timeout timeout env.fwTimeout % 1000 * 1000)
    else none, ?_⟩
  by_cases h : glib_select_fill_timeout timeout env.fwTimeout = 0
  · rw [if_pos h]
    simp [os_host_main_loop_wait_posix, annotateLock, h]
  · rw [if_neg h]
    have hpos : 0 < glib_select_fill_timeout timeout env.fwTimeout :=
      Nat.pos_of_ne_zero h
    simp [os_host_main_loop_wait_posix, annotateLock, hpos]

/-- Claim C4, counterexample: in iteration one the extra zero-timeout select
reports readiness (select_ret = 1, and the local timeout is indeed zeroed),
yet iteration two — run on the state iteration one left behind — hands
g_poll the freshly computed timeout 100, not zero: the zeroing is a dead
store to a local that the function discards by returning. -/
theorem claim_C4_counterexample :
    (0 : Int) ≤ (W32Env.mk (fun _ _ => 0) (-1) 0 (fun _ => 0) 0 1 0
        (fun t => t)).nfds
    ∧ (W32Env.mk (fun _ _ => 0) (-1) 0 (fun _ => 0) 0 1 0
        (fun t => t)).selectRet ≠ 0
    ∧ (main_loop_wait_w32
        (W32Env.mk (fun _ _ => 0) (-1) 0 (fun _ => 0) 0 1 0 (fun t => t))
        false [] initWaitObjects).2.localTimeoutFinal = 0
    ∧ (main_loop_wait_w32
        (W32Env.mk (fun _ _ => 0) 100 0 (fun _ => 0) 0 0 0 (fun t => t))
        false []
        (main_loop_wait_w32
          (W32Env.mk (fun _ _ => 0) (-1) 0 (fun _ => 0) 0 1 0 (fun t => t))
          false [] initWaitObjects).2.w).2.gPollTimeout = some 100
    ∧ (100 : Int) ≠ 0 := by
  refine ⟨by decide, by decide, by decide, by decide, by decide⟩

/-- Claim C4 (amended): the zeroing of the timeout after the extra
non-blocking select writes only the function-local timeout variable, which
is discarded on return; the next iteration's g_poll timeout is recomputed
solely from the nonblocking flag, the slirp adjustment, and that iteration's
framework timeout — the readiness the previous iteration's extra select
observed has no influence on it. -/
theorem claim_C4_amended (env1 env2 : W32Env) (nb : Bool) (pl : List PEntry)
    (w : WaitObjects)
    (hpoll : pl.foldl
      (fun acc pe => Int.lor acc (env2.pollCbRet pe.func pe.opq)) 0 = 0) :
    (main_loop_wait_w32 env2 nb pl
        (main_loop_wait_w32 env1 nb pl w).2.w).2.gPollTimeout =
      some (w32_poll_timeout
        (env2.slirpTimeout (if nb then 0 else UINT32_MAX)) env2.fwTimeout) := by
  have h2 : ∀ w' : WaitObjects,
      (os_host_main_loop_wait_w32 env2 pl w'
          (env2.slirpTimeout (if nb then 0 else UINT32_MAX))).gPollTimeout =
        some (w32_poll_timeout
          (env2.slirpTimeout (if nb then 0 else UINT32_MAX)) env2.fwTimeout) := by
    intro w'
    simp only [os_host_main_loop_wait_w32, hpoll]
    simp
  exact h2 _

/-- Witness for claim C4's amended theorem at concrete environments. -/
theorem claim_C4_witness :
    (main_loop_wait_w32
        (W32Env.mk (fun _ _ => 0) 100 0 (fun _ => 0) 0 0 0 (fun t => t))
        false []
        (main_loop_wait_w32
          (W32Env.mk (fun _ _ => 0) (-1) 0 (fun _ => 0) 0 1 0 (fun t => t))
          false [] initWaitObjects).2.w).2.gPollTimeout =
      some (w32_poll_timeout
        ((W32Env.mk (fun _ _ => 0) 100 0 (fun _ => 0) 0 0 0
          (fun t => t)).slirpTimeout (if false then 0 else UINT32_MAX))
        (W32Env.mk (fun _ _ => 0) 100 0 (fun _ => 0) 0 0 0
          (fun t => t)).fwTimeout) :=
  claim_C4_amended
    (W32Env.mk (fun _ _ => 0) (-1) 0 (fun _ => 0) 0 1 0 (fun t => t))
    (W32Env.mk (fun _ _ => 0) 100 0 (fun _ => 0) 0 0 0 (fun t => t))
    false [] initWaitObjects rfl

end QemuMainLoop
